import Mathlib

/-!
# Verification of the dx token-saving middleware (semantic/prefix/response caches, governor, scheduler)

Shallow embedding of the cache and governor crates under `src/dx/crates/`:

* `semantic-cache/src/lib.rs` — `canonicalize`, `build_key`, `store`, `process`
* `prefix-cache/src/lib.rs`   — `canonicalize_schema`, `compute_prefix_hash`, `process`
* `response-cache/src/lib.rs` — `store`, `lookup`, `process`
* `governor/src/lib.rs`       — `check_call`, `record_call`, `record_block`
* the pipeline scheduler (not present in the provided sources; modelled from the spec)

Modelling conventions, used throughout:

* Rust `String`/`&str` are Lean `String`; byte positions only matter where noted.
* blake3 hashing is modelled by its *input byte stream*: a `blake3::Hasher` fed a
  sequence of `update` chunks is represented by the concatenation of those chunks
  (blake3 is deterministic, so equal streams give equal hashes; it is treated as
  collision-free, so the model key *is* the stream).  All theorems about key
  equality only use the sound direction (equal streams ⇒ equal hashes).
* Fallible external effects (redb database/transaction operations) are modelled
  by an environment record carrying each step's success or failure, plus an
  explicit on-disk map for the persisted contents.
* Floating point appears in the source only in `total_pct > 0.8` (governor) and
  `prefix_tokens as f64 * discount` (prefix-cache) with discounts 0.90/0.75/0.50.
  Both are modelled in exact integer arithmetic (`10*a > 8*b`, and
  `n * percent / 100`); the f64 computations agree with these for every count
  below 2^49, far beyond any realistic token count, and at every concrete input
  used in this file.
-/

/-! ## Character classes

`regex_lite`'s Perl classes (`\d`, `\s`, `\w`) are ASCII-only; Rust's
`str::trim` trims Unicode `White_Space`. -/

/-- ASCII word character, regex `\w`. -/
def isWordChar (c : Char) : Bool := c.isAlphanum || c = '_'

/-- ASCII whitespace, regex `\s` in `regex_lite`. -/
def isRegexWs (c : Char) : Bool :=
  c = ' ' || c = '\t' || c = '\n' || c = '\x0d' || c.toNat = 11 || c.toNat = 12

/-- Unicode `White_Space`, as used by Rust's `str::trim`. -/
def isRustWs (c : Char) : Bool :=
  isRegexWs c || c.toNat = 0x85 || c.toNat = 0xA0 || c.toNat = 0x1680 ||
  (0x2000 ≤ c.toNat && c.toNat ≤ 0x200A) || c.toNat = 0x2028 || c.toNat = 0x2029 ||
  c.toNat = 0x202F || c.toNat = 0x205F || c.toNat = 0x3000

/-- Lowercase hex digit, the class `[0-9a-f]`. -/
def isHexLower (c : Char) : Bool := c.isDigit || (97 ≤ c.toNat && c.toNat ≤ 102)

/-! ## A generic `replace_all` scanner

`Regex::replace_all` finds the leftmost non-overlapping matches of the original
string, left to right, and splices in the replacement; replacement text is never
rescanned, and word boundaries refer to the original characters.  `replaceScan`
implements exactly that: the matcher `m` is tried at every position (receiving
the previous original character for `\b` checks); on a match of length `n` the
replacement is emitted and scanning resumes after the matched characters. -/

def replaceScanAux (m : Option Char → List Char → Option Nat) (repl : List Char) :
    Nat → Option Char → List Char → List Char
  | _, _, [] => []
  | 0, _, l => l
  | fuel + 1, prev, c :: rest =>
    match m prev (c :: rest) with
    | some n =>
      repl ++ replaceScanAux m repl fuel (some ((c :: rest).getD (n - 1) c)) (rest.drop (n - 1))
    | none => c :: replaceScanAux m repl fuel (some c) rest

/-- Run the scan with enough fuel for the whole input (each step consumes at
least one character, so `l.length` steps always complete the scan; the
fuel-exhausted branch is unreachable). -/
def replaceScan (m : Option Char → List Char → Option Nat) (repl : List Char)
    (prev : Option Char) (l : List Char) : List Char :=
  replaceScanAux m repl l.length prev l

/-! ## Matchers for the six substitutions of `SemanticCacheSaver::canonicalize` -/

/-- Consume exactly `n` characters satisfying `p`, returning the rest. -/
def takeClass (p : Char → Bool) : Nat → List Char → Option (List Char)
  | 0, l => some l
  | n + 1, c :: l => if p c then takeClass p n l else none
  | _ + 1, [] => none

/-- Consume one expected literal character. -/
def expectCh (c : Char) : List Char → Option (List Char)
  | d :: l => if d = c then some l else none
  | [] => none

/-- Consume an expected literal sequence. -/
def expectStr : List Char → List Char → Option (List Char)
  | [], l => some l
  | p :: ps, c :: l => if c = p then expectStr ps l else none
  | _ :: _, [] => none

/-- `\b` holds before the current position iff the previous character (if any)
is not a word character. -/
def boundaryBefore (prev : Option Char) : Bool :=
  match prev with
  | none => true
  | some c => !isWordChar c

/-- Matcher for `\d{4}-\d{2}-\d{2}[T ]\d{2}:\d{2}:\d{2}[^\s]*` (ISO timestamps). -/
def matchISO (_ : Option Char) (l : List Char) : Option Nat := do
  let r ← takeClass Char.isDigit 4 l
  let r ← expectCh '-' r
  let r ← takeClass Char.isDigit 2 r
  let r ← expectCh '-' r
  let r ← takeClass Char.isDigit 2 r
  let r ← (match r with
           | c :: t => if c = 'T' || c = ' ' then some t else none
           | [] => none)
  let r ← takeClass Char.isDigit 2 r
  let r ← expectCh ':' r
  let r ← takeClass Char.isDigit 2 r
  let r ← expectCh ':' r
  let r ← takeClass Char.isDigit 2 r
  let tail := r.dropWhile (fun c => !isRegexWs c)
  some (l.length - tail.length)

/-- Matcher for `\b1[6-7]\d{8}\b` (Unix-epoch seconds). -/
def matchTS (prev : Option Char) (l : List Char) : Option Nat :=
  if !boundaryBefore prev then none else
  match l with
  | '1' :: c2 :: rest =>
    if c2 = '6' || c2 = '7' then
      match takeClass Char.isDigit 8 rest with
      | some [] => some 10
      | some (c :: _) => if isWordChar c then none else some 10
      | none => none
    else none
  | _ => none

/-- One alternative of the home-directory pattern: literal head, `\w+`, literal tail. -/
def matchHomeAlt (pre : List Char) (endCh : Char) (l : List Char) : Option Nat := do
  let r ← expectStr pre l
  let r ← (match r with
           | c :: t => if isWordChar c then some (t.dropWhile isWordChar) else none
           | [] => none)
  let r ← expectCh endCh r
  some (l.length - r.length)

/-- Matcher for `(/home/\w+/|/Users/\w+/|C:\\Users\\\w+\\)`, leftmost-first. -/
def matchHome (_ : Option Char) (l : List Char) : Option Nat :=
  (matchHomeAlt "/home/".data '/' l).orElse fun _ =>
  (matchHomeAlt "/Users/".data '/' l).orElse fun _ =>
  matchHomeAlt "C:\\Users\\".data '\\' l

/-- Matcher for the RFC4122 UUID pattern `[0-9a-f]{8}-…{4}-…{4}-…{4}-…{12}`. -/
def matchUUID (_ : Option Char) (l : List Char) : Option Nat := do
  let r ← takeClass isHexLower 8 l
  let r ← expectCh '-' r
  let r ← takeClass isHexLower 4 r
  let r ← expectCh '-' r
  let r ← takeClass isHexLower 4 r
  let r ← expectCh '-' r
  let r ← takeClass isHexLower 4 r
  let r ← expectCh '-' r
  let r ← takeClass isHexLower 12 r
  some (l.length - r.length)

/-- Matcher for `\b[0-9a-f]{40}\b` (40-hex hashes). -/
def matchSHA (prev : Option Char) (l : List Char) : Option Nat :=
  if !boundaryBefore prev then none else
  match takeClass isHexLower 40 l with
  | some [] => some 40
  | some (c :: _) => if isWordChar c then none else some 40
  | none => none

/-- Matcher for `\s+` (a maximal whitespace run). -/
def matchWsRun (_ : Option Char) (l : List Char) : Option Nat :=
  match l with
  | c :: _ => if isRegexWs c then some (l.takeWhile isRegexWs).length else none
  | _ => none

/-- Rust `str::trim`: drop Unicode whitespace from both ends. -/
def trimEnds (l : List Char) : List Char :=
  ((l.dropWhile isRustWs).reverse.dropWhile isRustWs).reverse

/-- `SemanticCacheSaver::canonicalize` (semantic-cache/src/lib.rs:46-74): the six
ordered substitutions — ISO timestamps → `[T]`, Unix timestamps → `[TS]`, home
paths → `~/`, UUIDs → `[ID]`, 40-hex hashes → `[SHA]`, whitespace collapse —
followed by `trim`. -/
def canonicalize (s : String) : String :=
  let l := replaceScan matchISO "[T]".data none s.data
  let l := replaceScan matchTS "[TS]".data none l
  let l := replaceScan matchHome "~/".data none l
  let l := replaceScan matchUUID "[ID]".data none l
  let l := replaceScan matchSHA "[SHA]".data none l
  let l := replaceScan matchWsRun " ".data none l
  String.mk (trimEnds l)

example : canonicalize "Error at 2026-01-01T00:00:00Z: connection refused" =
    "Error at [T] connection refused" := by decide

example : canonicalize "request 550e8400-e29b-41d4-a716-446655440000 failed" =
    "request [ID] failed" := by decide

example : canonicalize "/home/alice/project/src/main.rs" = "~/project/src/main.rs" := by
  decide

/-! ## Data model

`Message`, `ToolSchema`, `SaverInput`, `SaverOutput`, `TokenSavingsReport` are
declared in the `dx-core` crate, which is not among the provided sources; their
fields are reconstructed from every construction/use site in the provided crates
(e.g. the prefix-cache tests build `Message { role, content, images,
tool_call_id, token_count }` and `ToolSchema { name, description, parameters,
token_count }`) and match the spec's §3 data model.  JSON values
(`serde_json::Value`) are modelled with objects as *ordered* field lists —
the general case, in which `canonicalize_schema`'s recursive key sorting is
meaningful.  JSON numbers are modelled as integers; none of the verified
properties depend on float payloads. -/

inductive Json where
  | null
  | bool (b : Bool)
  | num (n : Int)
  | str (s : String)
  | arr (elts : List Json)
  | obj (fields : List (String × Json))

structure Message where
  role : String
  content : String
  images : List String
  tool_call_id : Option String
  token_count : Nat

structure ToolSchema where
  name : String
  description : String
  parameters : Json
  token_count : Nat

structure SaverInput where
  messages : List Message
  tools : List ToolSchema
  images : List String

structure SaverOutput where
  messages : List Message
  tools : List ToolSchema
  images : List String
  skipped : Bool
  cached_response : Option String

structure TokenSavingsReport where
  technique : String
  tokens_before : Nat
  tokens_after : Nat
  tokens_saved : Nat
  description : String

/-- `TokenSavingsReport::default()`. -/
def TokenSavingsReport.empty : TokenSavingsReport :=
  { technique := "", tokens_before := 0, tokens_after := 0, tokens_saved := 0, description := "" }

/-! ## SemanticCacheSaver (semantic-cache/src/lib.rs)

A `blake3::Hasher` fed successive `update` chunks is modelled by the
concatenation of the chunks (see the header comment); a digest is represented
by its input stream.  The `moka` cache is modelled as an association list with
insert-overwrite and first-match lookup; TTL expiry and LRU capacity eviction
are not modelled (no verified claim mentions them). -/

structure CachedEntry where
  response : String
  input_tokens : Nat
  output_tokens : Nat

structure CacheStats where
  hits : Nat
  misses : Nat
  total_tokens_saved : Nat

abbrev SemCache := List (String × CachedEntry)

/-- `moka::sync::Cache::insert`: inserts or overwrites the entry for `k`. -/
def cacheInsert (c : SemCache) (k : String) (v : CachedEntry) : SemCache :=
  (k, v) :: c.eraseP (fun p => p.1 == k)

/-- The sequence of canonicalized user-role message contents, in order:
`messages.iter().filter(|m| m.role == "user")` with each content canonicalized. -/
def userCanonContents (messages : List Message) : List String :=
  (messages.filter (fun m => m.role == "user")).map (fun m => canonicalize m.content)

/-- `SemanticCacheSaver::build_key` (semantic-cache/src/lib.rs:80-87): one hasher,
updated with the canonicalized bytes of each user message in order — i.e. the
hash of the plain concatenation, with no boundary marker between messages. -/
def buildKey (messages : List Message) : String :=
  String.join (userCanonContents messages)

/-- `SemanticCacheSaver::store` (semantic-cache/src/lib.rs:89-96). -/
def scStore (cache : SemCache) (messages : List Message) (response : String)
    (input_tokens output_tokens : Nat) : SemCache :=
  cacheInsert cache (buildKey messages)
    { response := response, input_tokens := input_tokens, output_tokens := output_tokens }

/-- `SemanticCacheSaver::process` (semantic-cache/src/lib.rs:112-154), with the
cache map, stats and report as explicit state.  The hit-rate percentage inside
the description string is formatted with floats in the source and is not
reproduced verbatim here; no claim concerns the description text. -/
def scProcess (cache : SemCache) (stats : CacheStats) (report : TokenSavingsReport)
    (input : SaverInput) : SaverOutput × CacheStats × TokenSavingsReport :=
  let key := buildKey input.messages
  match List.lookup key cache with
  | some cached =>
    let tokensSaved := cached.input_tokens + cached.output_tokens
    let stats' : CacheStats :=
      { hits := stats.hits + 1, misses := stats.misses,
        total_tokens_saved := stats.total_tokens_saved + tokensSaved }
    let report' : TokenSavingsReport :=
      { technique := "semantic-cache", tokens_before := tokensSaved, tokens_after := 0,
        tokens_saved := tokensSaved, description := "cache hit" }
    (⟨input.messages, input.tools, input.images, true, some cached.response⟩, stats', report')
  | none =>
    (⟨input.messages, input.tools, input.images, false, none⟩,
     { stats with misses := stats.misses + 1 }, report)

/-! ## GovernorSaver (governor/src/lib.rs)

`check_call` takes the state lock, reads, and returns a decision without
writing any field; `record_call`/`record_block` perform the updates.  A call
signature `blake3::hash(format!("{}:{}", tool_name, args_str))` is modelled by
its preimage string; `args` is taken already serialized
(`serde_json::to_string(args)`).  The only float, `total_calls as f64 /
max_per_task as f64 > 0.8`, is modelled as `10 * total_calls > 8 *
max_per_task`, which agrees with the f64 comparison for every
`max_per_task < 2^49` and also at `max_per_task = 0` (NaN/∞ cases).  The
percentage inside the warning's reason string uses integer division where the
source rounds a float; no claim depends on reason texts. -/

structure GovernorConfig where
  max_per_response : Nat
  max_per_task : Nat
  max_consecutive_same : Nat
  dedupe_identical : Bool
  max_output_tokens : Nat

/-- `GovernorConfig::default()` (governor/src/lib.rs:44-54). -/
def GovernorConfig.default : GovernorConfig :=
  { max_per_response := 10, max_per_task := 50, max_consecutive_same := 3,
    dedupe_identical := true, max_output_tokens := 4000 }

structure GovernorState where
  total_calls : Nat
  response_calls : Nat
  call_signatures : List (String × String)
  last_tool : Option String
  consecutive_count : Nat
  blocked_calls : Nat
  blocked_tokens_saved : Nat

/-- The state a fresh `GovernorSaver::new` starts from (governor/src/lib.rs:64-78). -/
def initialGovernorState : GovernorState :=
  { total_calls := 0, response_calls := 0, call_signatures := [], last_tool := none,
    consecutive_count := 0, blocked_calls := 0, blocked_tokens_saved := 0 }

inductive GovernorDecision where
  | Allow
  | Block (reason : String)
  | AllowWithWarning (reason : String)
deriving DecidableEq

def GovernorDecision.isBlock : GovernorDecision → Bool
  | .Block _ => true
  | _ => false

/-- Signature of a call, `blake3::hash(format!("{}:{}", tool_name, args_str))`,
modelled by the hash preimage. -/
def callSig (tool_name args_str : String) : String := tool_name ++ ":" ++ args_str

/-- `GovernorSaver::check_call` (governor/src/lib.rs:91-138): the five checks in
source order.  It only reads the locked state; nothing is incremented. -/
def checkCall (cfg : GovernorConfig) (st : GovernorState) (tool_name args_str : String) :
    GovernorDecision :=
  if st.total_calls ≥ cfg.max_per_task then
    .Block ("task tool budget exhausted (" ++ toString st.total_calls ++ "/" ++
      toString cfg.max_per_task ++ ")")
  else if st.response_calls ≥ cfg.max_per_response then
    .Block ("response tool budget exhausted (" ++ toString st.response_calls ++ "/" ++
      toString cfg.max_per_response ++ ")")
  else if st.last_tool = some tool_name ∧ st.consecutive_count ≥ cfg.max_consecutive_same then
    .Block ("too many consecutive '" ++ tool_name ++ "' calls (" ++
      toString st.consecutive_count ++ "/" ++ toString cfg.max_consecutive_same ++ ")")
  else if cfg.dedupe_identical &&
      st.call_signatures.any (fun p => p.1 == tool_name && p.2 == callSig tool_name args_str) then
    .Block "duplicate call (same tool + same args)"
  else if 10 * st.total_calls > 8 * cfg.max_per_task then
    .AllowWithWarning ("tool budget at " ++ toString (100 * st.total_calls / cfg.max_per_task) ++ "%")
  else
    .Allow

/-- `check_call` as a state transformer: the decision plus the post-call state,
which equals the pre-call state because `check_call` writes nothing. -/
def checkCallStep (cfg : GovernorConfig) (st : GovernorState) (tool_name args_str : String) :
    GovernorDecision × GovernorState :=
  (checkCall cfg st tool_name args_str, st)

/-- `GovernorSaver::record_call` (governor/src/lib.rs:141-160). -/
def recordCall (cfg : GovernorConfig) (st : GovernorState) (tool_name args_str : String) :
    GovernorState :=
  let st := { st with total_calls := st.total_calls + 1, response_calls := st.response_calls + 1 }
  let st :=
    if st.last_tool = some tool_name then
      { st with consecutive_count := st.consecutive_count + 1 }
    else
      { st with consecutive_count := 1, last_tool := some tool_name }
  if cfg.dedupe_identical then
    { st with call_signatures := st.call_signatures ++ [(tool_name, callSig tool_name args_str)] }
  else st

/-- `GovernorSaver::record_block` (governor/src/lib.rs:163-179): blocked calls
update the blocked counters and the savings report, not the call counters. -/
def recordBlock (st : GovernorState) (estimated_tokens : Nat) :
    GovernorState × TokenSavingsReport :=
  let st := { st with blocked_calls := st.blocked_calls + 1,
                      blocked_tokens_saved := st.blocked_tokens_saved + estimated_tokens }
  (st,
   { technique := "governor", tokens_before := st.blocked_tokens_saved + estimated_tokens,
     tokens_after := 0, tokens_saved := st.blocked_tokens_saved,
     description := "blocked " ++ toString st.blocked_calls ++ " redundant tool calls, saved ~" ++
       toString st.blocked_tokens_saved ++ " tokens" })

/-- `GovernorSaver::reset_response` (governor/src/lib.rs:85-88). -/
def resetResponse (st : GovernorState) : GovernorState :=
  { st with response_calls := 0 }

/-! ## PrefixCacheSaver (prefix-cache/src/lib.rs)

JSON serialization follows `serde_json::to_string` (compact form, standard
string escaping, integer numbers). -/

/-- Hex digit character for `\u00XX` escapes (lowercase, as serde emits). -/
def hexDigitChar (n : Nat) : Char :=
  if n < 10 then Char.ofNat (48 + n) else Char.ofNat (87 + n)

/-- serde_json escaping of one character inside a JSON string. -/
def jsonEscapeChar (c : Char) : String :=
  if c = '"' then "\\\""
  else if c = '\\' then "\\\\"
  else if c = '\n' then "\\n"
  else if c = '\x0d' then "\\r"
  else if c = '\t' then "\\t"
  else if c.toNat = 8 then "\\b"
  else if c.toNat = 12 then "\\f"
  else if c.toNat < 0x20 then
    "\\u00" ++ String.mk [hexDigitChar (c.toNat / 16), hexDigitChar (c.toNat % 16)]
  else String.singleton c

/-- A JSON string literal with quotes, as serde_json serializes it. -/
def jsonQuote (s : String) : String :=
  "\"" ++ String.join (s.data.map jsonEscapeChar) ++ "\""

mutual

/-- `serde_json::to_string` on a `Value` (compact serialization). -/
def serializeJson : Json → String
  | .null => "null"
  | .bool true => "true"
  | .bool false => "false"
  | .num n => toString n
  | .str s => jsonQuote s
  | .arr elts => "[" ++ serializeArr elts ++ "]"
  | .obj fields => "\x7b" ++ serializeObj fields ++ "\x7d"

def serializeArr : List Json → String
  | [] => ""
  | [j] => serializeJson j
  | j :: js => serializeJson j ++ "," ++ serializeArr js

def serializeObj : List (String × Json) → String
  | [] => ""
  | [(k, v)] => jsonQuote k ++ ":" ++ serializeJson v
  | (k, v) :: fs => jsonQuote k ++ ":" ++ serializeJson v ++ "," ++ serializeObj fs

end

/-- Lexicographic comparison of character sequences by codepoint — for UTF-8
this coincides with Rust's byte-lexicographic `Ord` on `String`, the order a
`BTreeMap<String, _>` sorts its keys by. -/
def charListLt : List Char → List Char → Bool
  | _, [] => false
  | [], _ :: _ => true
  | a :: xs, b :: ys =>
    if a.toNat < b.toNat then true
    else if b.toNat < a.toNat then false
    else charListLt xs ys

/-- Rust's `Ord` on `String` (byte-lexicographic). -/
def keyLt (a b : String) : Bool := charListLt a.data b.data

/-- Insertion into a `BTreeMap` viewed as a key-sorted association list:
keeps the list sorted by key; an existing equal key has its value replaced. -/
def btreeInsert (kv : String × Json) : List (String × Json) → List (String × Json)
  | [] => [kv]
  | (k, v) :: rest =>
    if keyLt kv.1 k then kv :: (k, v) :: rest
    else if kv.1 = k then (kv.1, kv.2) :: rest
    else (k, v) :: btreeInsert kv rest

/-- `map.iter().collect::<BTreeMap<_,_>>()`: fold the pairs, in iteration
order, into the sorted map; `serde_json::to_value` then serializes object keys
in exactly this sorted order. -/
def btreeCollect (l : List (String × Json)) : List (String × Json) :=
  l.foldl (fun acc kv => btreeInsert kv acc) []

mutual

/-- `PrefixCacheSaver::canonicalize_schema` (prefix-cache/src/lib.rs:83-96):
objects have their keys recursively sorted via `BTreeMap`, arrays keep element
order, scalars are cloned. -/
def canonicalizeSchema : Json → Json
  | .obj fields => .obj (btreeCollect (canonSchemaFields fields))
  | .arr elts => .arr (canonSchemaList elts)
  | j => j

def canonSchemaList : List Json → List Json
  | [] => []
  | j :: js => canonicalizeSchema j :: canonSchemaList js

def canonSchemaFields : List (String × Json) → List (String × Json)
  | [] => []
  | (k, v) :: fs => (k, canonicalizeSchema v) :: canonSchemaFields fs

end

inductive ModelFamily where
  | Gpt5
  | Gpt41
  | Gpt4o
  | Claude
  | Unknown
deriving DecidableEq

/-- Is `needle` a contiguous sublist of `hay` (Rust `str::contains`)? -/
def subListAt (needle : List Char) : List Char → Bool
  | [] => needle.isEmpty
  | c :: rest => needle.isPrefixOf (c :: rest) || subListAt needle rest

def strContains (hay needle : String) : Bool := subListAt needle.data hay.data

def strStarts (hay needle : String) : Bool := needle.data.isPrefixOf hay.data

/-- Rust `str::to_lowercase` (ASCII model; model names are ASCII). -/
def toLowerStr (s : String) : String := String.mk (s.data.map Char.toLower)

/-- `ModelFamily::from_model_name` (prefix-cache/src/lib.rs:42-49). -/
def modelFamilyFromName (model : String) : ModelFamily :=
  let m := toLowerStr model
  if strContains m "gpt-5" then .Gpt5
  else if strContains m "gpt-4.1" || strContains m "gpt4.1" then .Gpt41
  else if strContains m "gpt-4o" || strStarts m "o1" || strStarts m "o3" || strStarts m "o4" then
    .Gpt4o
  else if strContains m "claude" || strContains m "anthropic" then .Claude
  else .Unknown

/-- `ModelFamily::cache_discount` (prefix-cache/src/lib.rs:52-60) returns the
f64 fractions 0.90 / 0.75 / 0.50 / 0.90 / 0.50; modelled as integer percent. -/
def cacheDiscountPct : ModelFamily → Nat
  | .Gpt5 => 90
  | .Gpt41 => 75
  | .Gpt4o => 50
  | .Claude => 90
  | .Unknown => 50

/-- Stable insertion preserving the relative order of equal names. -/
def insertToolSorted (t : ToolSchema) : List ToolSchema → List ToolSchema
  | [] => [t]
  | u :: us => if u.name ≤ t.name then u :: insertToolSorted t us else t :: u :: us

/-- `PrefixCacheSaver::sort_tools` (prefix-cache/src/lib.rs:77-79): stable sort
by name (`slice::sort_by` is stable; a stable insertion sort computes the same
list). -/
def sortTools (tools : List ToolSchema) : List ToolSchema :=
  tools.foldl (fun acc t => insertToolSorted t acc) []

/-- Step 2 of `PrefixCacheSaver::process` on one tool: canonicalize the schema
and re-derive the token count as `(name.len() + description.len() + s.len()) / 4`
over byte lengths. -/
def pcTransformTool (t : ToolSchema) : ToolSchema :=
  let params := canonicalizeSchema t.parameters
  let s := serializeJson params
  { t with parameters := params,
           token_count := (t.name.utf8ByteSize + t.description.utf8ByteSize + s.utf8ByteSize) / 4 }

/-- Step 3 of `PrefixCacheSaver::process`:
`messages.sort_by_key(|m| if system { 0 } else { 1 })` — a stable sort by a 0/1
key, i.e. a stable partition with system messages first. -/
def systemsFirst (messages : List Message) : List Message :=
  messages.filter (fun m => m.role == "system") ++ messages.filter (fun m => m.role != "system")

/-- `PrefixCacheSaver::compute_prefix_hash` (prefix-cache/src/lib.rs:99-112):
the hasher's input stream — `\x00sys\x00` + content per system message, then
`\x00tool\x00` + name + serialized parameters per tool. -/
def prefixHashInput (messages : List Message) (tools : List ToolSchema) : String :=
  String.join ((messages.filter (fun m => m.role == "system")).map
    (fun m => "\x00sys\x00" ++ m.content)) ++
  String.join (tools.map (fun t => "\x00tool\x00" ++ t.name ++ serializeJson t.parameters))

/-- `PrefixCacheSaver::count_prefix_tokens` (prefix-cache/src/lib.rs:115-118). -/
def countPrefixTokens (messages : List Message) (tools : List ToolSchema) : Nat :=
  (((messages.filter (fun m => m.role == "system")).map (fun m => m.token_count)).sum) +
  ((tools.map (fun t => t.token_count)).sum)

/-- The tool list after steps 1-2 of `PrefixCacheSaver::process`. -/
def pcTools (input : SaverInput) : List ToolSchema :=
  (sortTools input.tools).map pcTransformTool

/-- The message list after step 3 of `PrefixCacheSaver::process`. -/
def pcMessages (input : SaverInput) : List Message :=
  systemsFirst input.messages

/-- `PrefixCacheSaver::process` (prefix-cache/src/lib.rs:131-196), with the
single `last_prefix_hash` slot threaded explicitly; `ctx.model` is passed as a
string.  Returns (new hash slot, report, output).  `effective_saved =
(prefix_tokens as f64 * discount) as usize` is modelled as
`prefix_tokens * percent / 100` (see the header comment); the float-formatted
human description strings are abbreviated — no claim concerns them. -/
def pcProcess (last : Option String) (input : SaverInput) (ctxModel : String) :
    Option String × TokenSavingsReport × SaverOutput :=
  let tools := pcTools input
  let messages := pcMessages input
  let currentHash := prefixHashInput messages tools
  let cacheHit := last = some currentHash
  let prefixTokens := countPrefixTokens messages tools
  let qualifies := prefixTokens ≥ 1024
  let report :=
    if cacheHit ∧ qualifies then
      let discountPct := cacheDiscountPct (modelFamilyFromName ctxModel)
      let effectiveSaved := prefixTokens * discountPct / 100
      { technique := "prefix-cache", tokens_before := prefixTokens,
        tokens_after := prefixTokens, tokens_saved := effectiveSaved,
        description := "prefix cache hit" }
    else
      { technique := "prefix-cache", tokens_before := prefixTokens,
        tokens_after := prefixTokens, tokens_saved := 0,
        description :=
          if ¬ qualifies then
            "prefix too short for caching (" ++ toString prefixTokens ++ " < 1024 tokens)"
          else "prefix changed — cache miss this turn" }
  (some currentHash, report,
   ⟨messages, tools, input.images, false, none⟩)

/-! ## ResponseCacheSaver (response-cache/src/lib.rs)

The redb store is modelled by an explicit on-disk map (`Disk`) plus an
environment record giving the success/failure of each database primitive
(`Database::create/open`, `begin_write/begin_read`, `open_table`, `insert`,
`commit`, `get`).  zstd compression (`compress_value`/`decompress_value`) is
kept abstract: theorems take the encoder/decoder as parameters, constrained
only where a claim needs the zstd library contract `decode_all ∘ encode_all =
id` (compressing into memory does not fail, so `compress_value`'s raw-bytes
fallback branch is unreachable and the encoder is total).  A 256-bit key is
modelled by its hash-preimage string, like every other digest here. -/

/-- `ToolDefinition` (dx-core): the same tool record; only `name` is read by
this crate. -/
abbrev ToolDefinition := ToolSchema

/-- The persisted contents of the single-file redb store: key → stored bytes,
insert-overwrite. -/
abbrev Disk := List (String × List Nat)

def diskInsert (disk : Disk) (key : String) (v : List Nat) : Disk :=
  (key, v) :: disk.eraseP (fun p => p.1 == key)

/-- `ResponseCacheSaver::build_key` (response-cache/src/lib.rs:44-55): hasher
stream of role + canonicalized content per message (all roles, in order), then
the tool names. -/
def rcBuildKey (messages : List Message) (tools : List ToolDefinition) : String :=
  String.join (messages.map (fun m => m.role ++ canonicalize m.content)) ++
  String.join (tools.map (fun t => t.name))

/-- Success/failure of each primitive a `store` call performs. -/
structure RcStoreEnv where
  createOk : Bool
  beginWriteOk : Bool
  openTableOk : Bool
  insertOk : Bool
  commitOk : Bool

def RcStoreEnv.allOk : RcStoreEnv := ⟨true, true, true, true, true⟩

def RcStoreEnv.anyFailure (env : RcStoreEnv) : Bool :=
  !env.createOk || !env.beginWriteOk || !env.openTableOk || !env.insertOk || !env.commitOk

/-- Success/failure of each primitive a `lookup` call performs. -/
structure RcLookupEnv where
  openOk : Bool
  beginReadOk : Bool
  openTableOk : Bool
  getOk : Bool

def RcLookupEnv.allOk : RcLookupEnv := ⟨true, true, true, true⟩

def RcLookupEnv.anyFailure (env : RcLookupEnv) : Bool :=
  !env.openOk || !env.beginReadOk || !env.openTableOk || !env.getOk

/-- `ResponseCacheSaver::store` (response-cache/src/lib.rs:66-85): every failed
step early-returns with the store untouched; the insert error is discarded
(`let _ =`) but an entry only persists when both the insert and the commit
succeed.  The function's type has no error outcome — failures are swallowed. -/
def rcStore (enc : String → List Nat) (env : RcStoreEnv) (enabled : Bool)
    (disk : Disk) (key response : String) : Disk :=
  if !enabled then disk
  else
    let compressed := enc response
    if !env.createOk then disk
    else if !env.beginWriteOk then disk
    else if !env.openTableOk then disk
    else if env.insertOk && env.commitOk then diskInsert disk key compressed
    else disk

/-- `ResponseCacheSaver::lookup` (response-cache/src/lib.rs:87-94): each `?`
turns a failure into `None`; a decode/decompress failure is likewise `None`. -/
def rcLookup (dec : List Nat → Option String) (env : RcLookupEnv) (enabled : Bool)
    (disk : Disk) (key : String) : Option String :=
  if !enabled then none
  else if !env.openOk then none
  else if !env.beginReadOk then none
  else if !env.openTableOk then none
  else if !env.getOk then none
  else
    match List.lookup key disk with
    | none => none
    | some bytes => dec bytes

/-- `SaverError` (dx-core, not among the sources): opaque error payload. -/
abbrev SaverError := String

/-- `ResponseCacheSaver::process` (response-cache/src/lib.rs:103-142): returns
`Ok` on every path — cache failures surface as a miss, never as an error. -/
def rcProcess (dec : List Nat → Option String) (env : RcLookupEnv) (enabled : Bool)
    (disk : Disk) (report : TokenSavingsReport) (input : SaverInput) :
    Except SaverError SaverOutput × TokenSavingsReport :=
  if !enabled then
    (.ok ⟨input.messages, input.tools, input.images, false, none⟩, report)
  else
    let key := rcBuildKey input.messages input.tools
    match rcLookup dec env enabled disk key with
    | some cached =>
      let totalTokens := (input.messages.map (fun m => m.token_count)).sum
      (.ok ⟨input.messages, input.tools, input.images, true, some cached⟩,
       { technique := "response-cache", tokens_before := totalTokens, tokens_after := 0,
         tokens_saved := totalTokens,
         description := "cache hit, saved " ++ toString totalTokens ++ " tokens" })
    | none =>
      (.ok ⟨input.messages, input.tools, input.images, false, none⟩, report)

/-! ## PipelineScheduler

Modelled from the spec: no scheduler implementation is among the provided
sources (the plugin crates implement the `TokenSaver` trait it consumes).
Spec §4.6: plugins expose `stage()`, `priority()`, `process`; stages form the
fixed total order call-elimination → pre-call → prompt-assembly → compression →
history-maintenance → post-response; within a stage ascending priority; each
output feeds the next plugin; `skipped=true` halts immediately returning that
`cached_response`; an error aborts the pipeline. -/

/-- Modelled from the spec: the fixed stage order of §4.6. -/
inductive SaverStage where
  | CallElimination
  | PreCall
  | PromptAssembly
  | Compression
  | History
  | PostResponse
deriving DecidableEq

/-- Position of a stage in the fixed total order. -/
def SaverStage.idx : SaverStage → Nat
  | .CallElimination => 0
  | .PreCall => 1
  | .PromptAssembly => 2
  | .Compression => 3
  | .History => 4
  | .PostResponse => 5

/-- Modelled from the spec: a registered plugin — `stage()`, `priority()` and
`process` (§6 plugin contract). -/
structure Plugin where
  stage : SaverStage
  priority : Nat
  proc : SaverInput → Except SaverError SaverOutput

/-- A `SaverOutput` fed to the next plugin as its input. -/
def SaverOutput.toInput (o : SaverOutput) : SaverInput :=
  ⟨o.messages, o.tools, o.images⟩

/-- Scheduler ordering: stage index first, then ascending priority. -/
def pluginBefore (p q : Plugin) : Bool :=
  p.stage.idx < q.stage.idx || (p.stage.idx == q.stage.idx && p.priority ≤ q.priority)

/-- Stable insertion sort by `pluginBefore` (the spec's "stable sort plus
sequential application"). -/
def insertPluginSorted (p : Plugin) : List Plugin → List Plugin
  | [] => [p]
  | q :: qs => if pluginBefore q p then q :: insertPluginSorted p qs else p :: q :: qs

def sortPlugins (registry : List Plugin) : List Plugin :=
  registry.foldl (fun acc p => insertPluginSorted p acc) []

/-- Outcome of one scheduled turn. -/
inductive SchedResult where
  | shortCircuit (resp : Option String)
  | completed (final : SaverInput)
  | failed (err : SaverError)

/-- Modelled from the spec: run the ordered plugin sequence, each output
becoming the next input; a `skipped=true` output halts immediately with its
`cached_response`; an error aborts.  Also returns the list of plugins that
actually executed. -/
def runSeq : List Plugin → SaverInput → List Plugin × SchedResult
  | [], i => ([], .completed i)
  | p :: ps, i =>
    match p.proc i with
    | .error e => ([p], .failed e)
    | .ok o =>
      if o.skipped then ([p], .shortCircuit o.cached_response)
      else
        let rest := runSeq ps o.toInput
        (p :: rest.1, rest.2)

/-- Modelled from the spec: the scheduler = stable sort by stage/priority, then
sequential application. -/
def schedule (registry : List Plugin) (i : SaverInput) : List Plugin × SchedResult :=
  runSeq (sortPlugins registry) i

/-! ## Shared lemmas -/

/-- Equal semantic-cache keys give identical hit/miss outcomes: the `skipped`
flag and `cached_response` of `process` depend on the input only through
`build_key`. -/
theorem scProcess_outcome_congr (cache : SemCache) (stats : CacheStats)
    (rep : TokenSavingsReport) (i1 i2 : SaverInput)
    (h : buildKey i1.messages = buildKey i2.messages) :
    (scProcess cache stats rep i1).1.skipped = (scProcess cache stats rep i2).1.skipped ∧
    (scProcess cache stats rep i1).1.cached_response =
      (scProcess cache stats rep i2).1.cached_response := by
  unfold scProcess
  rw [h]
  cases hl : List.lookup (buildKey i2.messages) cache <;> simp [hl]

open List

/-! ## Equality of JSON values up to object-key order (for C6)

`jeq a b` holds when `a` and `b` are equal except that, inside any object at
any nesting depth, the key/value pairs may be reordered (array element order is
preserved).  `jsonWF` requires object keys to be duplicate-free at every level,
as serde_json maps guarantee. -/

mutual

def jsonSize : Json → Nat
  | .obj fields => 1 + jsonFieldsSize fields
  | .arr elts => 1 + jsonListSize elts
  | _ => 1

def jsonListSize : List Json → Nat
  | [] => 0
  | j :: js => jsonSize j + jsonListSize js

def jsonFieldsSize : List (String × Json) → Nat
  | [] => 0
  | (_, v) :: fs => jsonSize v + jsonFieldsSize fs

end

def fieldKeys (l : List (String × Json)) : List String := l.map Prod.fst

mutual

def jsonWF : Json → Bool
  | .obj fields => decide (fieldKeys fields).Nodup && jsonFieldsWF fields
  | .arr elts => jsonListWF elts
  | _ => true

def jsonListWF : List Json → Bool
  | [] => true
  | j :: js => jsonWF j && jsonListWF js

def jsonFieldsWF : List (String × Json) → Bool
  | [] => true
  | (_, v) :: fs => jsonWF v && jsonFieldsWF fs

end

mutual

def jeq : Json → Json → Prop
  | .null, .null => True
  | .bool a, .bool b => a = b
  | .num a, .num b => a = b
  | .str a, .str b => a = b
  | .arr l1, .arr l2 => jeqList l1 l2
  | .obj f1, .obj f2 => ∃ mid, jeqFields f1 mid ∧ mid.Perm f2
  | _, _ => False

def jeqList : List Json → List Json → Prop
  | [], [] => True
  | a :: l1, b :: l2 => jeq a b ∧ jeqList l1 l2
  | _, _ => False

def jeqFields : List (String × Json) → List (String × Json) → Prop
  | [], [] => True
  | (k1, v1) :: f1, (k2, v2) :: f2 => k1 = k2 ∧ jeq v1 v2 ∧ jeqFields f1 f2
  | _, _ => False

end

theorem charToNat_inj {a b : Char} (h : a.toNat = b.toNat) : a = b :=
  Char.eq_of_val_eq (UInt32.toNat.inj h)

theorem charListLt_trans : ∀ (x y z : List Char), charListLt x y = true →
    charListLt y z = true → charListLt x z = true := by
  intro x
  induction x with
  | nil =>
    intro y z hxy hyz
    cases y with
    | nil => simp [charListLt] at hxy
    | cons b ys =>
      cases z with
      | nil => simp [charListLt] at hyz
      | cons c zs => simp [charListLt]
  | cons a xs ih =>
    intro y z hxy hyz
    cases y with
    | nil => simp [charListLt] at hxy
    | cons b ys =>
      cases z with
      | nil => simp [charListLt] at hyz
      | cons c zs =>
        simp only [charListLt] at hxy hyz ⊢
        rcases Nat.lt_trichotomy a.toNat b.toNat with hab | hab | hab
        · rcases Nat.lt_trichotomy b.toNat c.toNat with hbc | hbc | hbc
          · simp [show a.toNat < c.toNat by omega]
          · simp [show a.toNat < c.toNat by omega]
          · simp [show ¬ b.toNat < c.toNat by omega, hbc] at hyz
        · rcases Nat.lt_trichotomy b.toNat c.toNat with hbc | hbc | hbc
          · simp [show a.toNat < c.toNat by omega]
          · have hxy' : charListLt xs ys = true := by
              simpa [show ¬ a.toNat < b.toNat by omega,
                show ¬ b.toNat < a.toNat by omega] using hxy
            have hyz' : charListLt ys zs = true := by
              simpa [show ¬ b.toNat < c.toNat by omega,
                show ¬ c.toNat < b.toNat by omega] using hyz
            simp [show ¬ a.toNat < c.toNat by omega, show ¬ c.toNat < a.toNat by omega,
              ih ys zs hxy' hyz']
          · simp [show ¬ b.toNat < c.toNat by omega, hbc] at hyz
        · simp [show ¬ a.toNat < b.toNat by omega, hab] at hxy

theorem charListLt_asymm : ∀ (x y : List Char), charListLt x y = true →
    charListLt y x = false := by
  intro x
  induction x with
  | nil =>
    intro y hxy
    cases y with
    | nil => simp [charListLt] at hxy
    | cons b ys => simp [charListLt]
  | cons a xs ih =>
    intro y hxy
    cases y with
    | nil => simp [charListLt] at hxy
    | cons b ys =>
      simp only [charListLt] at hxy ⊢
      rcases Nat.lt_trichotomy a.toNat b.toNat with hab | hab | hab
      · simp [show ¬ b.toNat < a.toNat by omega, hab]
      · have hxy' : charListLt xs ys = true := by
          simpa [show ¬ a.toNat < b.toNat by omega,
            show ¬ b.toNat < a.toNat by omega] using hxy
        simp [show ¬ b.toNat < a.toNat by omega, show ¬ a.toNat < b.toNat by omega,
          ih ys hxy']
      · simp [show ¬ a.toNat < b.toNat by omega, hab] at hxy

theorem charListLt_total_of_ne : ∀ (x y : List Char), charListLt x y = false →
    x ≠ y → charListLt y x = true := by
  intro x
  induction x with
  | nil =>
    intro y hxy hne
    cases y with
    | nil => exact absurd rfl hne
    | cons b ys => simp [charListLt] at hxy
  | cons a xs ih =>
    intro y hxy hne
    cases y with
    | nil => simp [charListLt]
    | cons b ys =>
      simp only [charListLt] at hxy ⊢
      rcases Nat.lt_trichotomy a.toNat b.toNat with hab | hab | hab
      · simp [hab] at hxy
      · have hab' : a = b := charToNat_inj hab
        subst hab'
        have hxy' : charListLt xs ys = false := by
          simpa [show ¬ a.toNat < a.toNat by omega] using hxy
        have hne' : xs ≠ ys := fun he => hne (by rw [he])
        simp [show ¬ a.toNat < a.toNat by omega, ih ys hxy' hne']
      · simp [hab]

theorem stringDataInj {a b : String} (h : a.data = b.data) : a = b := by
  cases a; cases b; exact congrArg String.mk h

theorem keyLt_trans {a b c : String} (h1 : keyLt a b = true) (h2 : keyLt b c = true) :
    keyLt a c = true := charListLt_trans a.data b.data c.data h1 h2

theorem keyLt_asymm {a b : String} (h : keyLt a b = true) : keyLt b a = false :=
  charListLt_asymm a.data b.data h

theorem keyLt_total_of_ne {a b : String} (h : keyLt a b = false) (hne : a ≠ b) :
    keyLt b a = true :=
  charListLt_total_of_ne a.data b.data h fun he => hne (stringDataInj he)

/-- Strictly increasing keys — the shape of a serialized `BTreeMap`. -/
def pairKeyLt (p q : String × Json) : Prop := keyLt p.1 q.1 = true

instance : IsAntisymm (String × Json) pairKeyLt :=
  ⟨fun _ _ h1 h2 => absurd h2 (by simp [pairKeyLt, keyLt_asymm h1])⟩

def SortedKeys (l : List (String × Json)) : Prop := List.Pairwise pairKeyLt l

theorem mem_btreeInsert {kv x : String × Json} :
    ∀ {l}, x ∈ btreeInsert kv l → x = kv ∨ x ∈ l := by
  intro l
  induction l with
  | nil => simp [btreeInsert]
  | cons hd tl ih =>
    obtain ⟨k, v⟩ := hd
    simp only [btreeInsert]
    split_ifs with h1 h2
    · intro hx
      rcases List.mem_cons.mp hx with rfl | hx'
      · exact Or.inl rfl
      · exact Or.inr hx'
    · intro hx
      rcases List.mem_cons.mp hx with rfl | hx'
      · exact Or.inl rfl
      · exact Or.inr (List.mem_cons_of_mem _ hx')
    · intro hx
      rcases List.mem_cons.mp hx with rfl | hx'
      · exact Or.inr (List.mem_cons_self _ _)
      · rcases ih hx' with rfl | h
        · exact Or.inl rfl
        · exact Or.inr (List.mem_cons_of_mem _ h)

theorem btreeInsert_perm (kv : String × Json) :
    ∀ (l : List (String × Json)), (∀ q ∈ l, q.1 ≠ kv.1) → btreeInsert kv l ~ kv :: l := by
  intro l
  induction l with
  | nil => intro _; simp [btreeInsert]
  | cons hd tl ih =>
    intro h
    obtain ⟨k, v⟩ := hd
    simp only [btreeInsert]
    split_ifs with h1 h2
    · exact List.Perm.refl _
    · exact absurd h2.symm (h (k, v) (List.mem_cons_self _ _))
    · calc (k, v) :: btreeInsert kv tl
          ~ (k, v) :: kv :: tl :=
            List.Perm.cons _ (ih fun q hq => h q (List.mem_cons_of_mem _ hq))
        _ ~ kv :: (k, v) :: tl := List.Perm.swap kv (k, v) tl

theorem btreeInsert_sorted (kv : String × Json) :
    ∀ {l}, SortedKeys l → SortedKeys (btreeInsert kv l) := by
  intro l
  induction l with
  | nil => intro _; simp [btreeInsert, SortedKeys]
  | cons hd tl ih =>
    intro hs
    obtain ⟨k, v⟩ := hd
    obtain ⟨hhead, htl⟩ := List.pairwise_cons.mp hs
    simp only [btreeInsert]
    split_ifs with h1 h2
    · refine List.Pairwise.cons ?_ hs
      intro q hq
      rcases List.mem_cons.mp hq with rfl | hq'
      · exact h1
      · exact keyLt_trans h1 (hhead q hq')
    · refine List.Pairwise.cons ?_ htl
      intro q hq
      show keyLt (kv.1, kv.2).1 q.1 = true
      rw [show (kv.1, kv.2).1 = kv.1 from rfl, h2]
      exact hhead q hq
    · have h1' : keyLt kv.1 k = false := by revert h1; cases keyLt kv.1 k <;> simp
      have hk : keyLt k kv.1 = true := keyLt_total_of_ne h1' h2
      refine List.Pairwise.cons ?_ (ih htl)
      intro q hq
      rcases mem_btreeInsert hq with rfl | hq'
      · exact hk
      · exact hhead q hq'

theorem foldl_btreeInsert_perm_sorted :
    ∀ (l acc : List (String × Json)), SortedKeys acc →
      (fieldKeys acc ++ fieldKeys l).Nodup →
      List.foldl (fun a kv => btreeInsert kv a) acc l ~ acc ++ l ∧
      SortedKeys (List.foldl (fun a kv => btreeInsert kv a) acc l) := by
  intro l
  induction l with
  | nil =>
    intro acc hs _
    refine ⟨?_, hs⟩
    rw [List.append_nil]
    exact List.Perm.refl acc
  | cons kv rest ih =>
    intro acc hs hn
    have hkv_not : kv.1 ∉ fieldKeys acc := by
      intro hmem
      exact (List.nodup_append.mp hn).2.2 hmem (by simp [fieldKeys])
    have hperm_ins : btreeInsert kv acc ~ kv :: acc :=
      btreeInsert_perm kv acc fun q hq he => hkv_not (he ▸ List.mem_map_of_mem Prod.fst hq)
    have hsort' := btreeInsert_sorted kv hs
    have hkeys_perm : fieldKeys (btreeInsert kv acc) ~ kv.1 :: fieldKeys acc := by
      simpa [fieldKeys] using hperm_ins.map Prod.fst
    have h0 : (fieldKeys acc ++ kv.1 :: fieldKeys rest).Nodup := by
      simpa [fieldKeys] using hn
    have h1 : ((kv.1 :: fieldKeys acc) ++ fieldKeys rest).Nodup :=
      List.perm_middle.nodup h0
    have hn' : (fieldKeys (btreeInsert kv acc) ++ fieldKeys rest).Nodup :=
      (hkeys_perm.symm.append_right (fieldKeys rest)).nodup h1
    obtain ⟨ihp, ihs⟩ := ih (btreeInsert kv acc) hsort' hn'
    refine ⟨?_, ihs⟩
    calc List.foldl (fun a kv => btreeInsert kv a) acc (kv :: rest)
        = List.foldl (fun a kv => btreeInsert kv a) (btreeInsert kv acc) rest := rfl
      _ ~ btreeInsert kv acc ++ rest := ihp
      _ ~ (kv :: acc) ++ rest := hperm_ins.append_right rest
      _ = kv :: (acc ++ rest) := rfl
      _ ~ acc ++ kv :: rest := List.perm_middle.symm

theorem btreeCollect_of_perm {l1 l2 : List (String × Json)} (hp : l1 ~ l2)
    (hn : (fieldKeys l1).Nodup) : btreeCollect l1 = btreeCollect l2 := by
  have hn2 : (fieldKeys l2).Nodup := ((hp.map Prod.fst).nodup_iff).mp hn
  have c1 := foldl_btreeInsert_perm_sorted l1 [] (by simp [SortedKeys]) (by simpa [fieldKeys])
  have c2 := foldl_btreeInsert_perm_sorted l2 [] (by simp [SortedKeys]) (by simpa [fieldKeys])
  exact List.eq_of_perm_of_sorted (c1.1.trans (hp.trans c2.1.symm)) c1.2 c2.2

theorem canonSchemaFields_eq_map :
    ∀ fs, canonSchemaFields fs = fs.map fun kv => (kv.1, canonicalizeSchema kv.2) := by
  intro fs
  induction fs with
  | nil => rfl
  | cons hd tl ih => obtain ⟨k, v⟩ := hd; simp [canonSchemaFields, ih]

theorem canonSchemaFields_keys (fs : List (String × Json)) :
    fieldKeys (canonSchemaFields fs) = fieldKeys fs := by
  rw [canonSchemaFields_eq_map]
  simp [fieldKeys, List.map_map, Function.comp_def]

theorem jeqFields_keys : ∀ (f1 f2 : List (String × Json)),
    jeqFields f1 f2 → fieldKeys f1 = fieldKeys f2 := by
  intro f1
  induction f1 with
  | nil =>
    intro f2 h
    cases f2 with
    | nil => rfl
    | cons hd tl => obtain ⟨k, v⟩ := hd; simp [jeqFields] at h
  | cons hd tl ih =>
    obtain ⟨k1, v1⟩ := hd
    intro f2 h
    cases f2 with
    | nil => simp [jeqFields] at h
    | cons hd2 tl2 =>
      obtain ⟨k2, v2⟩ := hd2
      simp only [jeqFields] at h
      obtain ⟨hk, -, ht⟩ := h
      show k1 :: fieldKeys tl = k2 :: fieldKeys tl2
      rw [hk, ih tl2 ht]

theorem jsonSize_pos : ∀ a, 1 ≤ jsonSize a := by
  intro a
  cases a <;> simp [jsonSize]

/-- Canonicalization identifies values that are equal up to object-key order:
the core lemma for C6, by strong induction on the size of `a`. -/
theorem canon_jeq_size : ∀ (n : Nat) (a b : Json), jsonSize a ≤ n → jeq a b →
    jsonWF a = true → canonicalizeSchema a = canonicalizeSchema b := by
  intro n
  induction n with
  | zero => intro a b hsz; exact absurd (le_trans (jsonSize_pos a) hsz) (by omega)
  | succ n ih =>
    intro a b hsz hj hw
    have auxL : ∀ (l1 l2 : List Json), jsonListSize l1 ≤ n → jeqList l1 l2 →
        jsonListWF l1 = true → canonSchemaList l1 = canonSchemaList l2 := by
      intro l1
      induction l1 with
      | nil =>
        intro l2 _ hje _
        cases l2 with
        | nil => rfl
        | cons => simp [jeqList] at hje
      | cons hd tl ihl =>
        intro l2 hls hje hlw
        cases l2 with
        | nil => simp [jeqList] at hje
        | cons hd2 tl2 =>
          simp only [jeqList] at hje
          obtain ⟨hje1, hje2⟩ := hje
          simp only [jsonListWF, Bool.and_eq_true] at hlw
          obtain ⟨hlw1, hlw2⟩ := hlw
          have hs1 : jsonSize hd ≤ n := le_trans (by simp [jsonListSize]) hls
          have hs2 : jsonListSize tl ≤ n := le_trans (by simp [jsonListSize]) hls
          simp only [canonSchemaList]
          rw [ih hd hd2 hs1 hje1 hlw1, ihl tl2 hs2 hje2 hlw2]
    have auxF : ∀ (f1 f2 : List (String × Json)), jsonFieldsSize f1 ≤ n → jeqFields f1 f2 →
        jsonFieldsWF f1 = true → canonSchemaFields f1 = canonSchemaFields f2 := by
      intro f1
      induction f1 with
      | nil =>
        intro f2 _ hje _
        cases f2 with
        | nil => rfl
        | cons hd tl => obtain ⟨k, v⟩ := hd; simp [jeqFields] at hje
      | cons hd tl ihf =>
        obtain ⟨k1, v1⟩ := hd
        intro f2 hfs hje hfw
        cases f2 with
        | nil => simp [jeqFields] at hje
        | cons hd2 tl2 =>
          obtain ⟨k2, v2⟩ := hd2
          simp only [jeqFields] at hje
          obtain ⟨hk, hje1, hje2⟩ := hje
          simp only [jsonFieldsWF, Bool.and_eq_true] at hfw
          obtain ⟨hfw1, hfw2⟩ := hfw
          have hs1 : jsonSize v1 ≤ n := le_trans (by simp [jsonFieldsSize]) hfs
          have hs2 : jsonFieldsSize tl ≤ n := le_trans (by simp [jsonFieldsSize]) hfs
          simp only [canonSchemaFields]
          rw [hk, ih v1 v2 hs1 hje1 hfw1, ihf tl2 hs2 hje2 hfw2]
    cases a with
    | null => cases b with
      | null => rfl
      | bool b => simp [jeq] at hj
      | num x => simp [jeq] at hj
      | str s => simp [jeq] at hj
      | arr l => simp [jeq] at hj
      | obj f => simp [jeq] at hj
    | bool x => cases b with
      | bool y => simp only [jeq] at hj; rw [hj]
      | null => simp [jeq] at hj
      | num y => simp [jeq] at hj
      | str y => simp [jeq] at hj
      | arr l => simp [jeq] at hj
      | obj f => simp [jeq] at hj
    | num x => cases b with
      | num y => simp only [jeq] at hj; rw [hj]
      | null => simp [jeq] at hj
      | bool y => simp [jeq] at hj
      | str y => simp [jeq] at hj
      | arr l => simp [jeq] at hj
      | obj f => simp [jeq] at hj
    | str x => cases b with
      | str y => simp only [jeq] at hj; rw [hj]
      | null => simp [jeq] at hj
      | bool y => simp [jeq] at hj
      | num y => simp [jeq] at hj
      | arr l => simp [jeq] at hj
      | obj f => simp [jeq] at hj
    | arr l1 => cases b with
      | arr l2 =>
        simp only [jeq] at hj
        simp only [jsonWF] at hw
        have hls : jsonListSize l1 ≤ n := by
          have : jsonSize (.arr l1) = 1 + jsonListSize l1 := rfl
          omega
        simp only [canonicalizeSchema]
        rw [auxL l1 l2 hls hj hw]
      | null => simp [jeq] at hj
      | bool y => simp [jeq] at hj
      | num y => simp [jeq] at hj
      | str y => simp [jeq] at hj
      | obj f => simp [jeq] at hj
    | obj f1 => cases b with
      | obj f2 =>
        simp only [jeq] at hj
        obtain ⟨mid, hfe, hperm⟩ := hj
        simp only [jsonWF, Bool.and_eq_true] at hw
        obtain ⟨hnodB, hfw⟩ := hw
        have hfs : jsonFieldsSize f1 ≤ n := by
          have : jsonSize (.obj f1) = 1 + jsonFieldsSize f1 := rfl
          omega
        have hcan1 : canonSchemaFields f1 = canonSchemaFields mid := auxF f1 mid hfs hfe hfw
        have hnod1 : (fieldKeys f1).Nodup := of_decide_eq_true hnodB
        have hnod : (fieldKeys (canonSchemaFields mid)).Nodup := by
          rw [canonSchemaFields_keys, ← jeqFields_keys f1 mid hfe]
          exact hnod1
        have hpermC : canonSchemaFields mid ~ canonSchemaFields f2 := by
          rw [canonSchemaFields_eq_map, canonSchemaFields_eq_map]
          exact hperm.map _
        simp only [canonicalizeSchema]
        rw [hcan1, btreeCollect_of_perm hpermC hnod]
      | null => simp [jeq] at hj
      | bool y => simp [jeq] at hj
      | num y => simp [jeq] at hj
      | str y => simp [jeq] at hj
      | arr l => simp [jeq] at hj

/-! ## Claim theorems -/

/-- **C1, counterexample.**  The claim says `check_call` itself increments the
counters, so that with `max_same_tool_calls = 3` (the default
`max_consecutive_same`) the fourth successive `check_call("x")` returns Block.
In the source `check_call` only reads the locked state — four successive
`check_call`s with no intervening `record_call` all return Allow, the fourth
included. -/
theorem governor_fourth_check_without_record_allows :
    ((checkCallStep GovernorConfig.default initialGovernorState "x" "null").1 =
      GovernorDecision.Allow) ∧
    ((checkCallStep GovernorConfig.default
       (checkCallStep GovernorConfig.default initialGovernorState "x" "null").2
       "x" "null").1 = GovernorDecision.Allow) ∧
    ((checkCallStep GovernorConfig.default
       (checkCallStep GovernorConfig.default
         (checkCallStep GovernorConfig.default initialGovernorState "x" "null").2
         "x" "null").2
       "x" "null").1 = GovernorDecision.Allow) ∧
    ((checkCallStep GovernorConfig.default
       (checkCallStep GovernorConfig.default
         (checkCallStep GovernorConfig.default
           (checkCallStep GovernorConfig.default initialGovernorState "x" "null").2
           "x" "null").2
         "x" "null").2
       "x" "null").1 = GovernorDecision.Allow) := by
  decide

/-- **C1, amended.**  `check_call` evaluates, in fixed source order: session
total ≥ `max_per_task` → Block; this response's calls ≥ `max_per_response` →
Block; same tool as the previous call and `consecutive_count ≥
max_consecutive_same` → Block; duplicate (tool, args) signature → Block;
session total over 80% of `max_per_task` → AllowWithWarning; otherwise Allow.
It never updates counters — the caller invokes `record_call` after an allowed
call.  With the default config (`max_consecutive_same = 3`), three
check-then-record rounds of `"x"` with distinct arguments return Allow and the
fourth `check_call("x")` returns Block. -/
theorem governor_three_records_then_block :
    (checkCall GovernorConfig.default initialGovernorState "x" "a1" =
      GovernorDecision.Allow) ∧
    (checkCall GovernorConfig.default
      (recordCall GovernorConfig.default initialGovernorState "x" "a1") "x" "a2" =
      GovernorDecision.Allow) ∧
    (checkCall GovernorConfig.default
      (recordCall GovernorConfig.default
        (recordCall GovernorConfig.default initialGovernorState "x" "a1") "x" "a2") "x" "a3" =
      GovernorDecision.Allow) ∧
    ((checkCall GovernorConfig.default
      (recordCall GovernorConfig.default
        (recordCall GovernorConfig.default
          (recordCall GovernorConfig.default initialGovernorState "x" "a1")
          "x" "a2") "x" "a3") "x" "a4").isBlock = true) := by
  decide

/-- **C2, counterexample.**  `build_key` inserts no boundary marker between
user messages, so `["ab"]` and `["a", "b"]` — whose canonicalized content
sequences differ but concatenate identically — receive the *same* key, where
the claim asserts they receive different keys. -/
theorem semcache_split_messages_share_key :
    buildKey [⟨"user", "ab", [], none, 0⟩] =
      buildKey [⟨"user", "a", [], none, 0⟩, ⟨"user", "b", [], none, 0⟩] ∧
    userCanonContents [⟨"user", "ab", [], none, 0⟩] ≠
      userCanonContents [⟨"user", "a", [], none, 0⟩, ⟨"user", "b", [], none, 0⟩] := by
  decide

/-- **C2, amended.**  The key is the hash of the plain concatenation of the
canonicalized user-message contents in order, with no separator: any two
message lists whose canonicalized user contents concatenate to the same string
get the same key — and hence the same hit/miss outcome and cached response
from `process` against any cache state. -/
theorem semcache_key_ignores_message_boundaries (i1 i2 : SaverInput)
    (cache : SemCache) (stats : CacheStats) (rep : TokenSavingsReport)
    (h : String.join (userCanonContents i1.messages) =
         String.join (userCanonContents i2.messages)) :
    buildKey i1.messages = buildKey i2.messages ∧
    (scProcess cache stats rep i1).1.skipped = (scProcess cache stats rep i2).1.skipped ∧
    (scProcess cache stats rep i1).1.cached_response =
      (scProcess cache stats rep i2).1.cached_response := by
  have hk : buildKey i1.messages = buildKey i2.messages := h
  exact ⟨hk, scProcess_outcome_congr cache stats rep i1 i2 hk⟩

/-- **C2 amended, witness.** -/
theorem semcache_key_ignores_message_boundaries_witness :
    buildKey [⟨"user", "ab", [], none, 0⟩] =
      buildKey [⟨"user", "a", [], none, 0⟩, ⟨"user", "b", [], none, 0⟩] ∧
    (scProcess [] ⟨0, 0, 0⟩ TokenSavingsReport.empty ⟨[⟨"user", "ab", [], none, 0⟩], [], []⟩).1.skipped =
      (scProcess [] ⟨0, 0, 0⟩ TokenSavingsReport.empty
        ⟨[⟨"user", "a", [], none, 0⟩, ⟨"user", "b", [], none, 0⟩], [], []⟩).1.skipped ∧
    (scProcess [] ⟨0, 0, 0⟩ TokenSavingsReport.empty ⟨[⟨"user", "ab", [], none, 0⟩], [], []⟩).1.cached_response =
      (scProcess [] ⟨0, 0, 0⟩ TokenSavingsReport.empty
        ⟨[⟨"user", "a", [], none, 0⟩, ⟨"user", "b", [], none, 0⟩], [], []⟩).1.cached_response :=
  semcache_key_ignores_message_boundaries
    ⟨[⟨"user", "ab", [], none, 0⟩], [], []⟩
    ⟨[⟨"user", "a", [], none, 0⟩, ⟨"user", "b", [], none, 0⟩], [], []⟩
    [] ⟨0, 0, 0⟩ TokenSavingsReport.empty (by decide)

/-- **C3.**  `canonicalize` is not idempotent: in
`"2026-01-01\t00:00:00"` the tab defeats the ISO-timestamp pattern (its
separator class is `[T ]`), but the whitespace-collapse pass rewrites the tab
to a space, so the *second* canonicalization pass matches the timestamp and
rewrites the whole prefix to `[T]`. -/
theorem canonicalize_second_pass_changes_tab_timestamp :
    canonicalize "2026-01-01\t00:00:00" = "2026-01-01 00:00:00" ∧
    canonicalize (canonicalize "2026-01-01\t00:00:00") = "[T]" ∧
    canonicalize (canonicalize "2026-01-01\t00:00:00") ≠
      canonicalize "2026-01-01\t00:00:00" := by
  decide

/-- **C4.**  Store-then-process round-trip: after `store(m, r, it, ot)`, a
`process` whose user messages canonicalize to the same content sequence as
`m`'s hits — `skipped = true`, `cached_response = Some r`, and the report's
`tokens_saved = it + ot`; and for any input whose key is absent, `process`
falls through unchanged with `skipped = false` and no cached response. -/
theorem semcache_store_hit_and_miss_passthrough :
    (∀ (cache : SemCache) (stats : CacheStats) (rep : TokenSavingsReport)
       (m : List Message) (r : String) (it ot : Nat) (i : SaverInput),
       userCanonContents i.messages = userCanonContents m →
       (scProcess (scStore cache m r it ot) stats rep i).1.skipped = true ∧
       (scProcess (scStore cache m r it ot) stats rep i).1.cached_response = some r ∧
       (scProcess (scStore cache m r it ot) stats rep i).2.2.tokens_saved = it + ot) ∧
    (∀ (cache : SemCache) (stats : CacheStats) (rep : TokenSavingsReport) (i : SaverInput),
       List.lookup (buildKey i.messages) cache = none →
       (scProcess cache stats rep i).1 = ⟨i.messages, i.tools, i.images, false, none⟩) := by
  constructor
  · intro cache stats rep m r it ot i h
    have hk : buildKey i.messages = buildKey m := by unfold buildKey; rw [h]
    simp [scProcess, scStore, cacheInsert, hk, List.lookup]
  · intro cache stats rep i h
    simp [scProcess, h]

/-- **C4, witness.** -/
theorem semcache_store_hit_and_miss_passthrough_witness :
    ((scProcess (scStore [] [⟨"user", "hi", [], none, 1⟩] "resp" 3 4) ⟨0, 0, 0⟩
        TokenSavingsReport.empty ⟨[⟨"user", "hi", [], none, 1⟩], [], []⟩).1.skipped = true ∧
     (scProcess (scStore [] [⟨"user", "hi", [], none, 1⟩] "resp" 3 4) ⟨0, 0, 0⟩
        TokenSavingsReport.empty ⟨[⟨"user", "hi", [], none, 1⟩], [], []⟩).1.cached_response =
          some "resp" ∧
     (scProcess (scStore [] [⟨"user", "hi", [], none, 1⟩] "resp" 3 4) ⟨0, 0, 0⟩
        TokenSavingsReport.empty ⟨[⟨"user", "hi", [], none, 1⟩], [], []⟩).2.2.tokens_saved = 3 + 4) ∧
    (scProcess [] ⟨0, 0, 0⟩ TokenSavingsReport.empty ⟨[⟨"user", "new", [], none, 1⟩], [], []⟩).1 =
      ⟨[⟨"user", "new", [], none, 1⟩], [], [], false, none⟩ :=
  ⟨semcache_store_hit_and_miss_passthrough.1 [] ⟨0, 0, 0⟩ TokenSavingsReport.empty
     [⟨"user", "hi", [], none, 1⟩] "resp" 3 4 ⟨[⟨"user", "hi", [], none, 1⟩], [], []⟩ rfl,
   semcache_store_hit_and_miss_passthrough.2 [] ⟨0, 0, 0⟩ TokenSavingsReport.empty
     ⟨[⟨"user", "new", [], none, 1⟩], [], []⟩ rfl⟩

/-- **C9.**  Scheduler short-circuit: in an ordered plugin sequence, if the
plugins before `p` all complete normally and `p`'s output has
`skipped = true`, the run halts at `p` — the executed list is exactly the
prefix through `p`, so no plugin after it (in particular none in a later
stage) executes — and the turn's result is `p`'s `cached_response`. -/
theorem scheduler_short_circuit_halts
    (pre post : List Plugin) (p : Plugin) (i i' : SaverInput) (o : SaverOutput)
    (hpre : runSeq pre i = (pre, SchedResult.completed i'))
    (hp : p.proc i' = .ok o) (hskip : o.skipped = true) :
    runSeq (pre ++ p :: post) i = (pre ++ [p], SchedResult.shortCircuit o.cached_response) := by
  induction pre generalizing i with
  | nil =>
    simp only [runSeq] at hpre
    have hi : i = i' := by simpa using hpre
    subst hi
    simp only [List.nil_append, runSeq]
    rw [hp]
    simp [hskip]
  | cons q qs ih =>
    simp only [runSeq] at hpre
    cases hq : q.proc i with
    | error e => rw [hq] at hpre; simp at hpre
    | ok o' =>
      rw [hq] at hpre
      by_cases hsk : o'.skipped = true
      · simp [hsk] at hpre
      · simp only [Bool.not_eq_true] at hsk
        rcases hr : runSeq qs o'.toInput with ⟨ex, res⟩
        simp only [hsk, Bool.false_eq_true, if_false, hr, Prod.mk.injEq,
          List.cons.injEq] at hpre
        obtain ⟨⟨-, h1⟩, h2⟩ := hpre
        subst h1; subst h2
        have hrec := ih o'.toInput hr
        simp only [List.cons_append, runSeq]
        rw [hq]
        simp [hsk, hrec]

def schedPassPlugin : Plugin :=
  ⟨.CallElimination, 1, fun i => .ok ⟨i.messages, i.tools, i.images, false, none⟩⟩

def schedSkipPlugin : Plugin :=
  ⟨.CallElimination, 2, fun _ => .ok ⟨[], [], [], true, some "cached"⟩⟩

def schedLaterPlugin : Plugin :=
  ⟨.PreCall, 5, fun _ => .error "later stage must not run"⟩

/-- **C9, witness**: a pass-through plugin, then a short-circuiting one, then
a later-stage plugin that would error if it ever ran. -/
theorem scheduler_short_circuit_halts_witness :
    runSeq [schedPassPlugin, schedSkipPlugin, schedLaterPlugin] ⟨[], [], []⟩ =
      ([schedPassPlugin, schedSkipPlugin], SchedResult.shortCircuit (some "cached")) :=
  scheduler_short_circuit_halts [schedPassPlugin] [schedLaterPlugin] schedSkipPlugin
    ⟨[], [], []⟩ ⟨[], [], []⟩ ⟨[], [], [], true, some "cached"⟩ rfl rfl rfl

/-- **C10.**  Key noninterference: `build_key` reads only the user-role
messages' canonicalized contents, so two inputs agreeing on that sequence —
however much their system/assistant/tool messages, tool schemas or images
differ — get the same key and the same `skipped`/`cached_response` outcome
from `process` against any shared cache state. -/
theorem semcache_key_noninterference (i1 i2 : SaverInput)
    (cache : SemCache) (stats : CacheStats) (rep : TokenSavingsReport)
    (h : userCanonContents i1.messages = userCanonContents i2.messages) :
    buildKey i1.messages = buildKey i2.messages ∧
    (scProcess cache stats rep i1).1.skipped = (scProcess cache stats rep i2).1.skipped ∧
    (scProcess cache stats rep i1).1.cached_response =
      (scProcess cache stats rep i2).1.cached_response := by
  have hk : buildKey i1.messages = buildKey i2.messages := by unfold buildKey; rw [h]
  exact ⟨hk, scProcess_outcome_congr cache stats rep i1 i2 hk⟩

/-- **C5, counterexample.**  At a stable-prefix estimate of exactly 1024
tokens — which "does not exceed the minimum threshold (1024 tokens)" — a
second identical turn has a matching recorded hash and the code *does* report
savings (`qualifies` is `prefix_tokens >= 1024`): 1024 × 50% = 512, not the 0
the claim requires. -/
theorem prefix_savings_at_exactly_1024_nonzero :
    (pcProcess none ⟨[⟨"system", "S", [], none, 1024⟩], [], []⟩ "gpt-4o").1 =
      some (prefixHashInput (pcMessages ⟨[⟨"system", "S", [], none, 1024⟩], [], []⟩)
        (pcTools ⟨[⟨"system", "S", [], none, 1024⟩], [], []⟩)) ∧
    countPrefixTokens (pcMessages ⟨[⟨"system", "S", [], none, 1024⟩], [], []⟩)
      (pcTools ⟨[⟨"system", "S", [], none, 1024⟩], [], []⟩) = 1024 ∧
    (pcProcess (pcProcess none ⟨[⟨"system", "S", [], none, 1024⟩], [], []⟩ "gpt-4o").1
      ⟨[⟨"system", "S", [], none, 1024⟩], [], []⟩ "gpt-4o").2.1.tokens_saved = 512 ∧
    (pcProcess (pcProcess none ⟨[⟨"system", "S", [], none, 1024⟩], [], []⟩ "gpt-4o").1
      ⟨[⟨"system", "S", [], none, 1024⟩], [], []⟩ "gpt-4o").2.1.tokens_saved ≠ 0 := by
  decide

/-- **C5, amended.**  If the stable-prefix token estimate is strictly below
1024, the reported `tokens_saved` is zero even when the recorded hash matches;
when the hash matches and the estimate is at least 1024, the reported savings
equal `prefix_tokens × discount` for the model's family (integer-truncated). -/
theorem prefix_savings_threshold_and_discount (last : Option String)
    (input : SaverInput) (model : String) :
    (countPrefixTokens (pcMessages input) (pcTools input) < 1024 →
      (pcProcess last input model).2.1.tokens_saved = 0) ∧
    (last = some (prefixHashInput (pcMessages input) (pcTools input)) →
     1024 ≤ countPrefixTokens (pcMessages input) (pcTools input) →
      (pcProcess last input model).2.1.tokens_saved =
        countPrefixTokens (pcMessages input) (pcTools input) *
          cacheDiscountPct (modelFamilyFromName model) / 100) := by
  constructor
  · intro hlt
    simp only [pcProcess]
    split
    · next hcond => exact absurd hcond.2 (by omega)
    · rfl
  · intro hlast hge
    simp only [pcProcess]
    split
    · rfl
    · next hcond => exact absurd ⟨hlast, hge⟩ hcond

/-- **C5 amended, witness.** -/
theorem prefix_savings_threshold_and_discount_witness :
    (pcProcess none ⟨[⟨"system", "S", [], none, 100⟩], [], []⟩ "gpt-4o").2.1.tokens_saved = 0 ∧
    (pcProcess
      (some (prefixHashInput (pcMessages ⟨[⟨"system", "S", [], none, 2000⟩], [], []⟩)
        (pcTools ⟨[⟨"system", "S", [], none, 2000⟩], [], []⟩)))
      ⟨[⟨"system", "S", [], none, 2000⟩], [], []⟩ "gpt-4o").2.1.tokens_saved =
      countPrefixTokens (pcMessages ⟨[⟨"system", "S", [], none, 2000⟩], [], []⟩)
        (pcTools ⟨[⟨"system", "S", [], none, 2000⟩], [], []⟩) *
        cacheDiscountPct (modelFamilyFromName "gpt-4o") / 100 :=
  ⟨(prefix_savings_threshold_and_discount none
      ⟨[⟨"system", "S", [], none, 100⟩], [], []⟩ "gpt-4o").1 (by decide),
   (prefix_savings_threshold_and_discount
      (some (prefixHashInput (pcMessages ⟨[⟨"system", "S", [], none, 2000⟩], [], []⟩)
        (pcTools ⟨[⟨"system", "S", [], none, 2000⟩], [], []⟩)))
      ⟨[⟨"system", "S", [], none, 2000⟩], [], []⟩ "gpt-4o").2 rfl (by decide)⟩

/-- Is an `Except` value an `Ok`? -/
def exceptIsOk : Except SaverError SaverOutput → Bool
  | .ok _ => true
  | .error _ => false

/-- **C6.**  Schema canonicalization is key-order insensitive: two JSON values
equal up to the ordering of keys inside objects (at any nesting depth, array
order preserved; `jsonWF`: keys duplicate-free, as in any serde_json map)
canonicalize to byte-identical serialized forms, and hence the prefix-hash
input computed from them (tool name + serialized canonical parameters) is
equal. -/
theorem schema_canonicalization_key_order_insensitive (a b : Json) (h : jeq a b)
    (hw : jsonWF a = true) :
    serializeJson (canonicalizeSchema a) = serializeJson (canonicalizeSchema b) ∧
    ∀ (messages : List Message) (nm desc : String) (tc : Nat),
      prefixHashInput messages [⟨nm, desc, canonicalizeSchema a, tc⟩] =
        prefixHashInput messages [⟨nm, desc, canonicalizeSchema b, tc⟩] := by
  have hc : canonicalizeSchema a = canonicalizeSchema b :=
    canon_jeq_size (jsonSize a) a b le_rfl h hw
  exact ⟨by rw [hc], fun _ _ _ _ => by rw [hc]⟩

/-- **C6, witness**: the spec's own example, `{"b":1,"a":2}` versus
`{"a":2,"b":1}`. -/
theorem schema_canonicalization_key_order_insensitive_witness :
    serializeJson (canonicalizeSchema (Json.obj [("b", Json.num 1), ("a", Json.num 2)])) =
      serializeJson (canonicalizeSchema (Json.obj [("a", Json.num 2), ("b", Json.num 1)])) ∧
    prefixHashInput [] [⟨"t", "d", canonicalizeSchema (Json.obj [("b", Json.num 1), ("a", Json.num 2)]), 1⟩] =
      prefixHashInput [] [⟨"t", "d", canonicalizeSchema (Json.obj [("a", Json.num 2), ("b", Json.num 1)]), 1⟩] := by
  have h := schema_canonicalization_key_order_insensitive
    (Json.obj [("b", Json.num 1), ("a", Json.num 2)])
    (Json.obj [("a", Json.num 2), ("b", Json.num 1)])
    ⟨[("b", Json.num 1), ("a", Json.num 2)],
     by simp [jeqFields, jeq],
     List.Perm.swap ("a", Json.num 2) ("b", Json.num 1) []⟩
    (by decide)
  exact ⟨h.1, h.2 [] "t" "d" 1⟩

/-- **C7.**  The response cache is fail-open: (1) failure of any lookup
primitive (open/begin-read/open-table/get) yields `None`; (2) a
decode/decompress failure on the fetched bytes yields `None`; (3) failure of
any store primitive leaves the store untouched — and `store`'s type has no
error outcome at all; (4) `process` returns `Ok` on every path, so cache
failures never become pipeline errors. -/
theorem response_cache_fail_open :
    (∀ (dec : List Nat → Option String) (env : RcLookupEnv) (disk : Disk) (key : String),
       env.anyFailure = true → rcLookup dec env true disk key = none) ∧
    (∀ (dec : List Nat → Option String) (env : RcLookupEnv) (disk : Disk)
       (key : String) (bytes : List Nat),
       List.lookup key disk = some bytes → dec bytes = none →
       rcLookup dec env true disk key = none) ∧
    (∀ (enc : String → List Nat) (env : RcStoreEnv) (disk : Disk) (key r : String),
       env.anyFailure = true → rcStore enc env true disk key r = disk) ∧
    (∀ (dec : List Nat → Option String) (env : RcLookupEnv) (enabled : Bool) (disk : Disk)
       (rep : TokenSavingsReport) (input : SaverInput),
       exceptIsOk (rcProcess dec env enabled disk rep input).1 = true) := by
  refine ⟨?_, ?_, ?_, ?_⟩
  · intro dec env disk key h
    obtain ⟨o, b, t, g⟩ := env
    simp only [RcLookupEnv.anyFailure] at h
    cases o <;> cases b <;> cases t <;> cases g <;> simp_all [rcLookup]
  · intro dec env disk key bytes hdisk hdec
    obtain ⟨o, b, t, g⟩ := env
    cases o <;> cases b <;> cases t <;> cases g <;> simp_all [rcLookup]
  · intro enc env disk key r h
    obtain ⟨c, b, t, i, m⟩ := env
    simp only [RcStoreEnv.anyFailure] at h
    cases c <;> cases b <;> cases t <;> cases i <;> cases m <;> simp_all [rcStore]
  · intro dec env enabled disk rep input
    cases enabled
    · simp [rcProcess, exceptIsOk]
    · simp only [rcProcess]
      cases h : rcLookup dec env true disk (rcBuildKey input.messages input.tools) <;>
        simp [h, exceptIsOk]

/-- **C7, witness**: a failed `Database::open`, a decode failure on fetched
bytes, a failed `Database::create` during store, and a `process` call. -/
theorem response_cache_fail_open_witness :
    rcLookup (fun _ => none) ⟨false, true, true, true⟩ true [] "k" = none ∧
    rcLookup (fun _ => none) RcLookupEnv.allOk true [("k", [0])] "k" = none ∧
    rcStore (fun _ => []) ⟨false, true, true, true, true⟩ true [] "k" "r" = [] ∧
    exceptIsOk (rcProcess (fun _ => none) RcLookupEnv.allOk true [] TokenSavingsReport.empty
      ⟨[], [], []⟩).1 = true :=
  ⟨response_cache_fail_open.1 (fun _ => none) ⟨false, true, true, true⟩ [] "k" rfl,
   response_cache_fail_open.2.1 (fun _ => none) RcLookupEnv.allOk [("k", [0])] "k" [0] rfl rfl,
   response_cache_fail_open.2.2.1 (fun _ => []) ⟨false, true, true, true, true⟩ [] "k" "r" rfl,
   response_cache_fail_open.2.2.2 (fun _ => none) RcLookupEnv.allOk true [] TokenSavingsReport.empty
     ⟨[], [], []⟩⟩

/-- **C8.**  Durability round-trip: when every store primitive succeeds, the
compressed response is persisted under its key, and a lookup through a fresh
handle over the same persisted contents decompresses it back — for any
compressor/decompressor pair satisfying the zstd library contract
`decode_all ∘ encode_all = id` (composed here with UTF-8 encode/decode). -/
theorem response_cache_durable_roundtrip (enc : String → List Nat)
    (dec : List Nat → Option String) (hcodec : ∀ s, dec (enc s) = some s)
    (disk : Disk) (key r : String) :
    rcLookup dec RcLookupEnv.allOk true (rcStore enc RcStoreEnv.allOk true disk key r) key =
      some r := by
  have hstore : rcStore enc RcStoreEnv.allOk true disk key r = diskInsert disk key (enc r) := by
    simp [rcStore, RcStoreEnv.allOk]
  have hlook : List.lookup key (diskInsert disk key (enc r)) = some (enc r) := by
    simp [diskInsert, List.lookup]
  rw [hstore]
  simp [rcLookup, RcLookupEnv.allOk, hlook, hcodec]

/-- **C8, witness**: a concrete invertible codec standing in for
zstd-compress-then-UTF-8. -/
theorem response_cache_durable_roundtrip_witness :
    rcLookup (fun l => some (String.mk (l.map Char.ofNat))) RcLookupEnv.allOk true
      (rcStore (fun s => s.data.map Char.toNat) RcStoreEnv.allOk true [] "key" "resp")
      "key" = some "resp" :=
  response_cache_durable_roundtrip (fun s => s.data.map Char.toNat)
    (fun l => some (String.mk (l.map Char.ofNat)))
    (fun s => by
      show some (String.mk ((s.data.map Char.toNat).map Char.ofNat)) = some s
      rw [List.map_map]
      simp only [Function.comp_def, Char.ofNat_toNat, List.map_id']) [] "key" "resp"

/-- **C10, witness**: same single user message, completely different system
prompt, tools and images. -/
theorem semcache_key_noninterference_witness :
    buildKey [⟨"system", "You are A.", [], none, 3⟩, ⟨"user", "hi", [], none, 1⟩] =
      buildKey [⟨"system", "You are B.", [], none, 3⟩, ⟨"user", "hi", [], none, 1⟩] ∧
    (scProcess [] ⟨0, 0, 0⟩ TokenSavingsReport.empty
      ⟨[⟨"system", "You are A.", [], none, 3⟩, ⟨"user", "hi", [], none, 1⟩],
       [⟨"toolA", "d", Json.null, 2⟩], []⟩).1.skipped =
      (scProcess [] ⟨0, 0, 0⟩ TokenSavingsReport.empty
        ⟨[⟨"system", "You are B.", [], none, 3⟩, ⟨"user", "hi", [], none, 1⟩], [], ["img"]⟩).1.skipped ∧
    (scProcess [] ⟨0, 0, 0⟩ TokenSavingsReport.empty
      ⟨[⟨"system", "You are A.", [], none, 3⟩, ⟨"user", "hi", [], none, 1⟩],
       [⟨"toolA", "d", Json.null, 2⟩], []⟩).1.cached_response =
      (scProcess [] ⟨0, 0, 0⟩ TokenSavingsReport.empty
        ⟨[⟨"system", "You are B.", [], none, 3⟩, ⟨"user", "hi", [], none, 1⟩], [], ["img"]⟩).1.cached_response :=
  semcache_key_noninterference
    ⟨[⟨"system", "You are A.", [], none, 3⟩, ⟨"user", "hi", [], none, 1⟩],
     [⟨"toolA", "d", Json.null, 2⟩], []⟩
    ⟨[⟨"system", "You are B.", [], none, 3⟩, ⟨"user", "hi", [], none, 1⟩], [], ["img"]⟩
    [] ⟨0, 0, 0⟩ TokenSavingsReport.empty (by decide)
